import Mathlib

/-!
Shallow embedding of the `AsteriskCache` class (asterisk-cache repository,
`src/unnamed/part_000`).  JavaScript `Map` objects are modelled as
insertion-ordered association lists with JS `Map` semantics (`set` replaces
in place when the key exists, appends otherwise; `get` finds the first
matching key; `delete` removes the entry).  Node timers are modelled
explicitly: the event loop's pending-timer set is a list of `Timer` records,
`setTimeout` appends a fresh timer, `clearTimeout` removes it by id, and a
timer fires when the clock reaches its deadline.  Numeric AMI payload
fields arrive as strings in the source and pass through `parseInt` at each
use site; the embedding types them as integers, so the parse is the
identity.  Fallible transport interactions (`nami.send`) are modelled by an
oracle value of type `TransportOutcome` supplied as an argument.
-/

/-! ### JS-style list helpers -/

/-- JS `Array.prototype.findIndex` (as an `Option Nat`, `none` for `-1`). -/
def jsFindIndex {α : Type} (p : α → Bool) : List α → Option Nat
  | [] => none
  | x :: rest => if p x then some 0 else (jsFindIndex p rest).map (· + 1)

/-- JS `Array.prototype.find` (`none` for `undefined`). -/
def jsFind {α : Type} (p : α → Bool) : List α → Option α
  | [] => none
  | x :: rest => if p x then some x else jsFind p rest

/-- In-place element update `arr[i] = a` (no-op when out of range). -/
def setAt {α : Type} : List α → Nat → α → List α
  | [], _, _ => []
  | _ :: rest, 0, a => a :: rest
  | x :: rest, n + 1, a => x :: setAt rest n a

/-- JS `Array.prototype.splice(i, 1)`: removal of the element at index `i`. -/
def removeAt {α : Type} : List α → Nat → List α
  | [], _ => []
  | _ :: rest, 0 => rest
  | x :: rest, n + 1 => x :: removeAt rest n

/-- Duplicate-freeness of a string list, as a boolean. -/
def nodupBool : List String → Bool
  | [] => true
  | x :: rest => !rest.contains x && nodupBool rest

/-! ### JS `Map` model -/

/-- A JS `Map` with string keys: entries in insertion order. -/
abbrev JSMap (α : Type) := List (String × α)

/-- JS `Map.prototype.get` (first entry with the key). -/
def mapGet {α : Type} : JSMap α → String → Option α
  | [], _ => none
  | p :: rest, k => if p.1 == k then some p.2 else mapGet rest k

/-- JS `Map.prototype.set`: replace in place when the key exists, else append. -/
def mapSet {α : Type} : JSMap α → String → α → JSMap α
  | [], k, v => [(k, v)]
  | p :: rest, k, v => if p.1 == k then (k, v) :: rest else p :: mapSet rest k v

/-- JS `Map.prototype.delete` (first entry with the key). -/
def mapDelete {α : Type} : JSMap α → String → JSMap α
  | [], _ => []
  | p :: rest, k => if p.1 == k then rest else p :: mapDelete rest k

/-- JS `Array.from(map.values())`: the values in insertion order. -/
def mapValues {α : Type} (m : JSMap α) : List α := m.map (fun p => p.2)

/-! ### Data model -/

/-- A member record as stored in a queue's `members` array. -/
structure Member where
  name : String
  extension : String
  stateInterface : String
  membership : String
  penalty : Int
  callsTaken : Int
  lastCall : Int
  lastPause : Int
  loginTime : Int
  inCall : Int
  status : Int
  paused : Int
  pausedReason : String
  wrapupTime : Int
deriving DecidableEq, Repr

/-- A queue record as stored in `this.queues`. -/
structure Queue where
  name : String
  max : Int
  strategy : String
  calls : Int
  holdtime : Int
  talktime : Int
  completed : Int
  abandoned : Int
  servicelevel : Int
  servicelevelperf : Int
  servicelevelperf2 : Int
  weight : Int
  members : List Member
deriving DecidableEq, Repr

/-- Raw AMI member event payload (`QueueMemberStatus` / `QueueMemberPause` /
`QueueMemberAdded` / `QueueMemberRemoved` all carry these fields). -/
structure RawEvent where
  queue : String
  interface : String
  membername : String
  stateinterface : String
  membership : String
  penalty : Int
  callstaken : Int
  lastcall : Int
  lastpause : Int
  logintime : Int
  incall : Int
  status : Int
  paused : Int
  pausedreason : String
  wrapuptime : Int
deriving DecidableEq, Repr

/-- The two coalesced event kinds handled by `scheduleEventProcessing`. -/
inductive EventKind where
  | status
  | pause
deriving DecidableEq, Repr

/-- A pending coalesced event: the most recent payload plus the queue set
(`{...event, queues: [...]}` in the source; entries created by
`scheduleEventProcessing` always carry a `queues` list, so the
`event.queues || [event.queue]` fallback never takes its right branch). -/
structure PendingEvent where
  payload : RawEvent
  queues : List String
deriving DecidableEq, Repr

/-- Fields of a `QueueParams` entry of a `QueueStatus` response. -/
structure QueueParamsFields where
  queue : String
  max : Int
  strategy : String
  calls : Int
  holdtime : Int
  talktime : Int
  completed : Int
  abandoned : Int
  servicelevel : Int
  servicelevelperf : Int
  servicelevelperf2 : Int
  weight : Int
deriving DecidableEq, Repr

/-- Fields of a `QueueMember` entry of a `QueueStatus` response. -/
structure QueueMemberFields where
  name : String
  location : String
  stateinterface : String
  membership : String
  penalty : Int
  callstaken : Int
  lastcall : Int
  lastpause : Int
  logintime : Int
  incall : Int
  status : Int
  paused : Int
  pausedreason : String
  wrapuptime : Int
deriving DecidableEq, Repr

/-- One entry of the `response.events` list of a `QueueStatus` response. -/
inductive RespEvent where
  | queueParams (f : QueueParamsFields)
  | queueMember (f : QueueMemberFields)
  | otherEvent
deriving DecidableEq, Repr

/-- An AMI action response as delivered to the `_send` callback.
`events` is `none` when the response carries no `events` field. -/
structure Response where
  response : String
  message : Option String
  events : Option (List RespEvent)
deriving DecidableEq, Repr

/-- The failure modes of `_send` (the rejection reasons of its promise). -/
inductive SendErr where
  | notConnected
  | timeout
  | invalidResponse
  | remoteError (message : String)
deriving DecidableEq, Repr

/-- Oracle describing how the transport behaves for one `_send` call:
either the timeout timer wins the race, or a response (possibly `null`,
modelled by `none`) reaches the callback first. -/
inductive TransportOutcome where
  | noResponse
  | response (r : Option Response)
deriving DecidableEq, Repr

/-- Outbound notifications (`this.emit(...)` calls), in emission order. -/
inductive Notification where
  | memberStatusChanged (queues : List String) (member : Member) (paused : Int)
  | memberPauseChanged (queues : List String) (member : Member) (paused : Int)
  | queuesUpdated (queues : List Queue)
  | memberAdded (queue : String) (member : Member)
  | memberRemoved (queue : String) (member : Member)
  | connected
  | disconnected
  | reconnecting (delay : Nat)
  | connectionError (code : String) (message : String)
deriving DecidableEq, Repr

/-- What a Node timer does when it fires. -/
inductive TimerTask where
  | debounce (extension : String) (kind : EventKind)
  | connectTimeoutTask
  | reconnectTask
deriving DecidableEq, Repr

/-- An armed Node timer: creation id, absolute deadline, and task. -/
structure Timer where
  id : Nat
  fireAt : Nat
  task : TimerTask
deriving DecidableEq, Repr

/-- The complete mutable state of an `AsteriskCache` instance plus the
event loop's armed timers.  `pendingTimeouts` holds the
`` `${extension}_timeout` `` entries of `this.pendingEvents` (the stored
`setTimeout` handles), keyed by extension. -/
structure Sys where
  queues : JSMap Queue
  pendingEvents : JSMap PendingEvent
  pendingTimeouts : JSMap Nat
  timers : List Timer
  nextId : Nat
  isConnected : Bool
  isReconnecting : Bool
  shouldReconnect : Bool
  connectionTimeout : Option Nat
  reconnectTimeout : Option Nat
  listenersAttached : Bool
deriving DecidableEq, Repr

/-- The constant `this.eventTimeout`: the debounce window in milliseconds. -/
def eventTimeout : Nat := 500

/-- The constant `this.reconnectInterval` (ms). -/
def reconnectInterval : Nat := 5000

/-- The constant `this.connectTimeout` (ms). -/
def connectTimeoutMs : Nat := 10000

/-! ### Cache operations (translated from `AsteriskCache` methods) -/

/-- The member record built from a raw event's fields (the `newMember`
object of the `QueueMemberStatus` branch of `processPendingEvent`, and the
`member` object of `handleQueueMemberAdded` — both build the same record). -/
def memberFromRaw (event : RawEvent) : Member :=
  { name := event.membername
    extension := event.interface
    stateInterface := event.stateinterface
    membership := event.membership
    penalty := event.penalty
    callsTaken := event.callstaken
    lastCall := event.lastcall
    lastPause := event.lastpause
    loginTime := event.logintime
    inCall := event.incall
    status := event.status
    paused := event.paused
    pausedReason := event.pausedreason
    wrapupTime := event.wrapuptime }

/-- The per-queue body of `processPendingEvent`'s loop: find the member by
extension; if found, build `newMember` (full replacement for a Status
event, three-field merge for a Pause event) and write it back at the same
index. -/
def applyEventToQueue (eventType : EventKind) (event : RawEvent) (q : Queue) : Queue :=
  match jsFindIndex (fun m => m.extension == event.interface) q.members with
  | none => q
  | some memberIndex =>
    match q.members.get? memberIndex with
    | none => q
    | some oldMember =>
      let newMember :=
        match eventType with
        | .status => memberFromRaw event
        | .pause =>
          { oldMember with
            paused := event.paused
            pausedReason := event.pausedreason
            lastPause := event.lastpause }
      { q with members := setAt q.members memberIndex newMember }

/-- The loop of `processPendingEvent` over the affected queues: each affected
queue found in the map is updated and written back with `this.queues.set`. -/
def applyToQueues (eventType : EventKind) (event : RawEvent)
    (queueNames : List String) (m : JSMap Queue) : JSMap Queue :=
  queueNames.foldl
    (fun acc queueName =>
      match mapGet acc queueName with
      | none => acc
      | some q => mapSet acc queueName (applyEventToQueue eventType event q))
    m

/-- The merged notification of `processPendingEvent` (the
`memberStatusChanged` / `memberPauseChanged` branches share this shape). -/
def mkMerged : EventKind → List String → Member → Int → Notification
  | .status, qs, m, p => .memberStatusChanged qs m p
  | .pause, qs, m, p => .memberPauseChanged qs m p

/-- Method `processPendingEvent(extension, eventType)`: consume the pending entry,
apply it to every affected queue, emit at most one merged notification
(member snapshot from the first affected queue), then `queuesUpdated`. -/
def processPendingEvent (s : Sys) (extension : String) (eventType : EventKind) :
    Sys × List Notification :=
  match mapGet s.pendingEvents extension with
  | none => (s, [])
  | some event =>
    let s1 : Sys :=
      { s with
        pendingEvents := mapDelete s.pendingEvents extension
        pendingTimeouts := mapDelete s.pendingTimeouts extension }
    let queues := event.queues
    let newQueues := applyToQueues eventType event.payload queues s1.queues
    let s2 : Sys := { s1 with queues := newQueues }
    let merged : List Notification :=
      match queues.head? with
      | none => []
      | some q0 =>
        match mapGet s2.queues q0 with
        | none => []
        | some firstQueue =>
          match jsFind (fun m => m.extension == event.payload.interface) firstQueue.members with
          | none => []
          | some member => [mkMerged eventType queues member member.paused]
    (s2, merged ++ [Notification.queuesUpdated (mapValues s2.queues)])

/-- The statement `if (!existingEvent.queues.includes(q)) existingEvent.queues.push(q)`. -/
def pushNew (l : List String) (x : String) : List String :=
  if l.contains x then l else l ++ [x]

/-- First-occurrence deduplication: the order in which queues first
contributed to the pending window. -/
def firstDedup (l : List String) : List String := l.foldl pushNew []

/-- Method `scheduleEventProcessing(extension, eventType, event)` at wall-clock
time `now`: merge into the pending table (queue set grows idempotently,
payload is replaced last-writer-wins), cancel any previous debounce timer
for the extension, and arm a fresh full-window timer. -/
def scheduleEventProcessing (s : Sys) (now : Nat) (extension : String)
    (eventType : EventKind) (event : RawEvent) : Sys :=
  let s1 : Sys :=
    match mapGet s.pendingEvents extension with
    | some existingEvent =>
      { s with
        pendingEvents := mapSet s.pendingEvents extension
          { payload := event, queues := pushNew existingEvent.queues event.queue } }
    | none =>
      { s with
        pendingEvents := mapSet s.pendingEvents extension
          { payload := event, queues := [event.queue] } }
  let s2 : Sys :=
    match mapGet s1.pendingTimeouts extension with
    | some tid => { s1 with timers := s1.timers.filter (fun t => t.id != tid) }
    | none => s1
  let timer : Timer := { id := s2.nextId, fireAt := now + eventTimeout
                         task := TimerTask.debounce extension eventType }
  { s2 with
    timers := s2.timers ++ [timer]
    pendingTimeouts := mapSet s2.pendingTimeouts extension s2.nextId
    nextId := s2.nextId + 1 }

/-- The zero-valued default queue created by `handleQueueMemberAdded` for an
unseen queue name. -/
def defaultQueue (queueName : String) : Queue :=
  { name := queueName, max := 0, strategy := "ringall", calls := 0, holdtime := 0
    talktime := 0, completed := 0, abandoned := 0, servicelevel := 0
    servicelevelperf := 0, servicelevelperf2 := 0, weight := 0, members := [] }

/-- Method `handleQueueMemberAdded(event)`: lazily create the queue, then append
the member and emit `memberAdded` + `queuesUpdated` only when the extension
is not already present. -/
def handleQueueMemberAdded (s : Sys) (event : RawEvent) : Sys × List Notification :=
  let queueName := event.queue
  let found := mapGet s.queues queueName
  let queue := match found with
    | some q => q
    | none => defaultQueue queueName
  let s1 : Sys := match found with
    | some _ => s
    | none => { s with queues := mapSet s.queues queueName queue }
  let member := memberFromRaw event
  match jsFindIndex (fun m => m.extension == member.extension) queue.members with
  | some _ => (s1, [])
  | none =>
    let q2 := { queue with members := queue.members ++ [member] }
    let s2 : Sys := { s1 with queues := mapSet s1.queues queueName q2 }
    (s2, [Notification.memberAdded queueName member,
          Notification.queuesUpdated (mapValues s2.queues)])

/-- Method `handleQueueMemberRemoved(event)`: splice out the member when the queue
exists and contains the extension; silent no-op otherwise. -/
def handleQueueMemberRemoved (s : Sys) (event : RawEvent) : Sys × List Notification :=
  let queueName := event.queue
  match mapGet s.queues queueName with
  | none => (s, [])
  | some queue =>
    match jsFindIndex (fun m => m.extension == event.interface) queue.members with
    | none => (s, [])
    | some memberIndex =>
      match queue.members.get? memberIndex with
      | none => (s, [])
      | some removedMember =>
        let q2 := { queue with members := removeAt queue.members memberIndex }
        let s2 : Sys := { s with queues := mapSet s.queues queueName q2 }
        (s2, [Notification.memberRemoved queueName removedMember,
              Notification.queuesUpdated (mapValues s2.queues)])

/-- The member record built from a `QueueMember` response entry
(`extension` comes from the entry's `location` field). -/
def memberFromResp (f : QueueMemberFields) : Member :=
  { name := f.name
    extension := f.location
    stateInterface := f.stateinterface
    membership := f.membership
    penalty := f.penalty
    callsTaken := f.callstaken
    lastCall := f.lastcall
    lastPause := f.lastpause
    loginTime := f.logintime
    inCall := f.incall
    status := f.status
    paused := f.paused
    pausedReason := f.pausedreason
    wrapupTime := f.wrapuptime }

/-- The queue record built from a `QueueParams` response entry. -/
def queueFromParams (f : QueueParamsFields) : Queue :=
  { name := f.queue, max := f.max, strategy := f.strategy, calls := f.calls
    holdtime := f.holdtime, talktime := f.talktime, completed := f.completed
    abandoned := f.abandoned, servicelevel := f.servicelevel
    servicelevelperf := f.servicelevelperf, servicelevelperf2 := f.servicelevelperf2
    weight := f.weight, members := [] }

/-- The `updateQueues` response loop.  The source keeps `currentQueue` as an
object reference aliased into the map; since every `QueueParams` entry both
re-points `currentQueue` and (re)inserts its name, tracking the current
queue *name* and re-reading the map is equivalent. -/
def buildQueuesAux : JSMap Queue × Option String → List RespEvent → JSMap Queue × Option String
  | st, [] => st
  | (m, _), RespEvent.queueParams f :: rest =>
    buildQueuesAux (mapSet m f.queue (queueFromParams f), some f.queue) rest
  | (m, cur), RespEvent.queueMember f :: rest =>
    (match cur with
     | none => buildQueuesAux (m, cur) rest
     | some qn =>
       match mapGet m qn with
       | none => buildQueuesAux (m, cur) rest
       | some q =>
         buildQueuesAux
           (mapSet m qn { q with members := q.members ++ [memberFromResp f] }, cur) rest)
  | (m, cur), RespEvent.otherEvent :: rest => buildQueuesAux (m, cur) rest

/-- The queue map built from a `QueueStatus` response's events list
(`this.queues.clear()` followed by the loop). -/
def buildQueues (evs : List RespEvent) : JSMap Queue :=
  (buildQueuesAux ([], none) evs).1

/-- Method `updateQueues()`: the `_send(new Actions.QueueStatus())` round-trip is
the oracle argument.  Any error is caught and logged, leaving the state
untouched; a response without an `events` field is ignored; otherwise the
queue map is cleared and rebuilt, and `queuesUpdated` is emitted. -/
def updateQueues (s : Sys) (r : Except SendErr Response) : Sys × List Notification :=
  match r with
  | .error _ => (s, [])
  | .ok response =>
    match response.events with
    | none => (s, [])
    | some evs =>
      let m := buildQueues evs
      ({ s with queues := m }, [Notification.queuesUpdated (mapValues m)])

/-! ### Command gateway -/

/-- JS `a || d` for an optional string (`undefined`/`null`/`""` are falsy). -/
def jsOr (o : Option String) (d : String) : String :=
  match o with
  | none => d
  | some m => if m == "" then d else m

/-- Method `_send(action, timeout)`: reject `NotConnected` when not connected;
otherwise the race between the timeout timer and the response callback is
the oracle.  A `null` response rejects `InvalidResponse`; a response with
`response === 'Error'` rejects `RemoteError` carrying
`response.message || 'Erro desconhecido'`; anything else resolves. -/
def sendResult (isConnected : Bool) (out : TransportOutcome) : Except SendErr Response :=
  if !isConnected then .error .notConnected
  else
    match out with
    | .noResponse => .error .timeout
    | .response none => .error .invalidResponse
    | .response (some r) =>
      if r.response == "Error" then .error (.remoteError (jsOr r.message "Erro desconhecido"))
      else .ok r

/-- Method `pauseMember`: one `_send(new Actions.QueuePause(...))`; `true` exactly
on a `'Success'` response, `false` on every failure (errors are caught). -/
def pauseMember (isConnected : Bool) (out : TransportOutcome) : Bool :=
  match sendResult isConnected out with
  | .error _ => false
  | .ok response => response.response == "Success"

/-- Method `unpauseMember`: one `_send(new Actions.QueueUnpause(...))`; same
result mapping as `pauseMember`. -/
def unpauseMember (isConnected : Bool) (out : TransportOutcome) : Bool :=
  match sendResult isConnected out with
  | .error _ => false
  | .ok response => response.response == "Success"

/-- Method `addMemberToQueue`: one `_send(new Actions.QueueAdd(...))`; same
result mapping. -/
def addMemberToQueue (isConnected : Bool) (out : TransportOutcome) : Bool :=
  match sendResult isConnected out with
  | .error _ => false
  | .ok response => response.response == "Success"

/-- Method `removeMemberFromQueue`: one `_send(new Actions.QueueRemove(...))`;
same result mapping. -/
def removeMemberFromQueue (isConnected : Bool) (out : TransportOutcome) : Bool :=
  match sendResult isConnected out with
  | .error _ => false
  | .ok response => response.response == "Success"

/-! ### Connection resilience controller -/

/-- Method `connect()` at wall-clock time `now`: no-op when a connect is in flight
or shutdown was requested; otherwise re-register all transport listeners
and arm the bounded connect-timeout timer (`this.isReconnecting` is set in
the `try` and cleared in the `finally`, so it is `false` again when the
call returns).  The actual `nami.open()` outcome arrives later through
lifecycle events. -/
def connect (s : Sys) (now : Nat) : Sys × List Notification :=
  if s.isReconnecting || !s.shouldReconnect then (s, [])
  else
    let timer : Timer := { id := s.nextId, fireAt := now + connectTimeoutMs
                           task := TimerTask.connectTimeoutTask }
    ({ s with
        listenersAttached := true
        connectionTimeout := some s.nextId
        timers := s.timers ++ [timer]
        nextId := s.nextId + 1
        isReconnecting := false }, [])

/-- Method `handleDisconnection()` at time `now`: cancel the connect-timeout and
reconnect timers, mark disconnected, and — when reconnection is still
permitted — emit `reconnecting` and arm the fixed-delay reconnect timer. -/
def handleDisconnection (s : Sys) (now : Nat) : Sys × List Notification :=
  let s1 : Sys :=
    match s.connectionTimeout with
    | some tid => { s with timers := s.timers.filter (fun t => t.id != tid)
                           connectionTimeout := none }
    | none => s
  let s2 : Sys :=
    match s1.reconnectTimeout with
    | some tid => { s1 with timers := s1.timers.filter (fun t => t.id != tid)
                            reconnectTimeout := none }
    | none => s1
  let s3 : Sys := { s2 with isConnected := false }
  if s3.shouldReconnect then
    let timer : Timer := { id := s3.nextId, fireAt := now + reconnectInterval
                           task := TimerTask.reconnectTask }
    ({ s3 with
        timers := s3.timers ++ [timer]
        reconnectTimeout := some s3.nextId
        nextId := s3.nextId + 1 },
     [Notification.disconnected, Notification.reconnecting reconnectInterval])
  else (s3, [Notification.disconnected])

/-- Method `cleanup()`: set the do-not-reconnect flag, cancel the connect-timeout
and reconnect timers, cancel every stored debounce timeout, clear the
pending-event table, detach all listeners, close the transport when
connected (an external call, no cache effect here), and emit
`disconnected`.  (`process.exit(0)` ends the host process in the source;
the embedding returns the final state instead.) -/
def cleanup (s : Sys) : Sys × List Notification :=
  let s1 : Sys := { s with shouldReconnect := false }
  let s2 : Sys :=
    match s1.connectionTimeout with
    | some tid => { s1 with timers := s1.timers.filter (fun t => t.id != tid)
                            connectionTimeout := none }
    | none => s1
  let s3 : Sys :=
    match s2.reconnectTimeout with
    | some tid => { s2 with timers := s2.timers.filter (fun t => t.id != tid)
                            reconnectTimeout := none }
    | none => s2
  let s4 : Sys :=
    { s3 with timers := s3.timers.filter (fun t => !(s3.pendingTimeouts.any (fun p => p.2 == t.id))) }
  let s5 : Sys := { s4 with pendingEvents := [], pendingTimeouts := [] }
  let s6 : Sys := { s5 with listenersAttached := false }
  (s6, [Notification.disconnected])

/-! ### Event dispatch and the event loop -/

/-- A raw transport event as dispatched by `handleEvent`'s `switch`. -/
inductive AmiEvent where
  | fullyBooted
  | queueMemberStatus (e : RawEvent)
  | queueMemberAdded (e : RawEvent)
  | queueMemberRemoved (e : RawEvent)
  | queueMemberPause (e : RawEvent)
deriving DecidableEq, Repr

/-- Method `handleEvent(event)` at time `now`; `resyncResp` is the oracle for the
`QueueStatus` round-trip a `FullyBooted` event triggers. -/
def handleEvent (s : Sys) (now : Nat) (resyncResp : Except SendErr Response) :
    AmiEvent → Sys × List Notification
  | .fullyBooted => updateQueues s resyncResp
  | .queueMemberStatus e => (scheduleEventProcessing s now e.interface .status e, [])
  | .queueMemberAdded e => handleQueueMemberAdded s e
  | .queueMemberRemoved e => handleQueueMemberRemoved s e
  | .queueMemberPause e => (scheduleEventProcessing s now e.interface .pause e, [])

/-- Earlier-deadline order on timers (Node fires equal deadlines in
creation order). -/
def timerLE (a b : Timer) : Bool :=
  a.fireAt < b.fireAt || (a.fireAt == b.fireAt && a.id ≤ b.id)

/-- The next timer due at or before `now`, if any. -/
def dueMin (timers : List Timer) (now : Nat) : Option Timer :=
  (timers.filter (fun t => t.fireAt ≤ now)).foldl
    (fun acc t =>
      match acc with
      | none => some t
      | some u => if timerLE t u then some t else some u)
    none

/-- Firing one timer: the event loop removes it, then runs its callback. -/
def fireTimer (s : Sys) (now : Nat) (t : Timer) : Sys × List Notification :=
  let s1 : Sys := { s with timers := s.timers.filter (fun u => u.id != t.id) }
  match t.task with
  | .debounce extension kind => processPendingEvent s1 extension kind
  | .connectTimeoutTask =>
    let r := handleDisconnection s1 now
    (r.1, Notification.connectionError "TIMEOUT" "Timeout ao conectar ao Asterisk AMI" :: r.2)
  | .reconnectTask => connect s1 now

/-- Fire every timer due at or before `now`, in deadline order (fuelled;
each step consumes one due timer and arms only strictly-later ones). -/
def fireDueFuel : Nat → Sys → Nat → Sys × List Notification
  | 0, s, _ => (s, [])
  | fuel + 1, s, now =>
    match dueMin s.timers now with
    | none => (s, [])
    | some t =>
      let r1 := fireTimer s now t
      let r2 := fireDueFuel fuel r1.1 now
      (r2.1, r1.2 ++ r2.2)

/-- Advance the event loop's clock to `now`, firing all due timers. -/
def fireDue (s : Sys) (now : Nat) : Sys × List Notification :=
  fireDueFuel s.timers.length s now

/-- Deliver a time-stamped sequence of coalescable raw events (each is
dispatched like `handleEvent` does, keyed by its `interface` field), firing
due timers before each arrival, then advance the clock to `endTime`. -/
def runEvents (s : Sys) : List (Nat × EventKind × RawEvent) → Nat → Sys × List Notification
  | [], endTime => fireDue s endTime
  | x :: rest, endTime =>
    let r1 := fireDue s x.1
    let s2 := scheduleEventProcessing r1.1 x.1 x.2.2.interface x.2.1 x.2.2
    let r2 := runEvents s2 rest endTime
    (r2.1, r1.2 ++ r2.2)

/-- Every way the outside world can step the system after construction:
transport deliveries (only reach the instance while its listeners are
attached), transport-close notifications (likewise), the event loop firing
due timers, the process-wide `uncaughtException` hook (installed in the
constructor and never detached), and the public `connect`/`cleanup` API. -/
inductive SysAction where
  | deliver (now : Nat) (resyncResp : Except SendErr Response) (e : AmiEvent)
  | lifecycleClose (now : Nat)
  | fireTimers (now : Nat)
  | apiConnect (now : Nat)
  | uncaughtRefused (now : Nat)
  | apiCleanup
deriving Repr

/-- One external step of the system. -/
def step (s : Sys) : SysAction → Sys × List Notification
  | .deliver now resyncResp e =>
    if s.listenersAttached then handleEvent s now resyncResp e else (s, [])
  | .lifecycleClose now =>
    if s.listenersAttached then handleDisconnection s now else (s, [])
  | .fireTimers now => fireDue s now
  | .apiConnect now => connect s now
  | .uncaughtRefused now => handleDisconnection s now
  | .apiCleanup => cleanup s

/-- Run a sequence of external steps, concatenating emissions. -/
def runActions (s : Sys) : List SysAction → Sys × List Notification
  | [] => (s, [])
  | a :: rest =>
    let r1 := step s a
    let r2 := runActions r1.1 rest
    (r2.1, r1.2 ++ r2.2)

/-! ### Predicates used by the statements -/

/-- Whether a notification is one of the two merged member notifications. -/
def isMerged : Notification → Bool
  | .memberStatusChanged _ _ _ => true
  | .memberPauseChanged _ _ _ => true
  | _ => false

/-- The affected-queue list carried by a merged notification. -/
def notifQueues : Notification → List String
  | .memberStatusChanged qs _ _ => qs
  | .memberPauseChanged qs _ _ => qs
  | _ => []

/-- Whether the named queue exists and contains a member with the given
extension. -/
def queueHasMember (m : JSMap Queue) (queueName extension : String) : Bool :=
  match mapGet m queueName with
  | none => false
  | some q => q.members.any (fun mem => mem.extension == extension)

/-- The emission guard of `processPendingEvent`: the first affected queue
exists and contains the event's extension. -/
def firstQueueHasMember (m : JSMap Queue) (queueNames : List String) (extension : String) : Bool :=
  match queueNames with
  | [] => false
  | q0 :: _ => queueHasMember m q0 extension

/-- No queue in the cache holds two members with the same extension. -/
def queuesNodup (s : Sys) : Bool :=
  s.queues.all (fun p => nodupBool (p.2.members.map Member.extension))

/-- Whether a `QueueStatus` response never repeats a member location within
one queue segment (the run of `QueueMember` entries attributed to the most
recent `QueueParams` entry). -/
def respMembersOkAux : List String → List RespEvent → Bool
  | _, [] => true
  | _, RespEvent.queueParams _ :: rest => respMembersOkAux [] rest
  | seen, RespEvent.queueMember f :: rest =>
    !seen.contains f.location && respMembersOkAux (f.location :: seen) rest
  | seen, RespEvent.otherEvent :: rest => respMembersOkAux seen rest

/-- Top-level entry of `respMembersOkAux`. -/
def respMembersOk (evs : List RespEvent) : Bool := respMembersOkAux [] evs

/-- Inter-arrival sanity for a timed event list: each event arrives no
earlier than its predecessor and strictly within the debounce window. -/
def gapsOkFrom (tprev : Nat) : List (Nat × EventKind × RawEvent) → Bool
  | [] => true
  | x :: rest => (decide (tprev ≤ x.1) && decide (x.1 < tprev + eventTimeout)) && gapsOkFrom x.1 rest

/-- The arrival time of the last event (`tprev` for an empty list). -/
def lastT (tprev : Nat) : List (Nat × EventKind × RawEvent) → Nat
  | [] => tprev
  | x :: rest => lastT x.1 rest

/-- Every armed timer's id is recorded in one of the handle slots
(`pendingEvents`' timeout entries, `connectionTimeout`, or
`reconnectTimeout`) — true of every state the source can reach, since each
`setTimeout` stores its handle and each handle-drop clears the timer. -/
def timersRegistered (s : Sys) : Bool :=
  s.timers.all (fun t =>
    s.pendingTimeouts.any (fun p => p.2 == t.id)
    || s.connectionTimeout == some t.id
    || s.reconnectTimeout == some t.id)

/-- A post-shutdown state: nothing armed, nothing pending, reconnection
disabled, listeners detached. -/
def Quiescent (s : Sys) : Prop :=
  s.timers = [] ∧ s.pendingEvents = [] ∧ s.pendingTimeouts = [] ∧
    s.shouldReconnect = false ∧ s.listenersAttached = false ∧
    s.connectionTimeout = none ∧ s.reconnectTimeout = none

/-! ### Concrete fixtures for witnesses and counterexamples -/

/-- A freshly constructed instance (empty cache, nothing armed). -/
def baseSys : Sys :=
  { queues := [], pendingEvents := [], pendingTimeouts := [], timers := []
    nextId := 0, isConnected := true, isReconnecting := false
    shouldReconnect := true, connectionTimeout := none, reconnectTimeout := none
    listenersAttached := true }

/-- A sample agent logged into queues `"A"` and `"B"`. -/
def exMember : Member :=
  { name := "Agente 1", extension := "SIP/100", stateInterface := "SIP/100"
    membership := "static", penalty := 0, callsTaken := 3, lastCall := 10
    lastPause := 20, loginTime := 30, inCall := 0, status := 1, paused := 0
    pausedReason := "", wrapupTime := 5 }

/-- Queue `"A"` containing `exMember`. -/
def exQueueA : Queue :=
  { name := "A", max := 0, strategy := "ringall", calls := 0, holdtime := 0
    talktime := 0, completed := 0, abandoned := 0, servicelevel := 0
    servicelevelperf := 0, servicelevelperf2 := 0, weight := 0
    members := [exMember] }

/-- Queue `"B"` containing `exMember`. -/
def exQueueB : Queue := { exQueueA with name := "B" }

/-- A quiescent instance whose cache holds queues `"A"` and `"B"`, both
containing extension `"SIP/100"`. -/
def exSys : Sys := { baseSys with queues := [("A", exQueueA), ("B", exQueueB)] }

/-- A raw pause event for `"SIP/100"` in queue `"A"` (earlier payload). -/
def exPauseA : RawEvent :=
  { queue := "A", interface := "SIP/100", membername := "Agente 1"
    stateinterface := "SIP/100", membership := "static", penalty := 0
    callstaken := 3, lastcall := 10, lastpause := 50, logintime := 30
    incall := 0, status := 1, paused := 1, pausedreason := "Early"
    wrapuptime := 5 }

/-- A raw pause event for `"SIP/100"` in queue `"B"` with `paused = 1` and
reason `"Lunch"` (the newest payload, which last-writer-wins keeps). -/
def exPauseB : RawEvent :=
  { exPauseA with queue := "B", lastpause := 111, pausedreason := "Lunch" }

/-- The member record after the coalesced pause is applied. -/
def exMemberPaused : Member :=
  { exMember with paused := 1, pausedReason := "Lunch", lastPause := 111 }

/-- A `QueueStatus` response whose single queue segment repeats the same
location twice. -/
def dupResp : Response :=
  { response := "Success", message := none
    events := some
      [RespEvent.queueParams
        { queue := "A", max := 0, strategy := "ringall", calls := 0
          holdtime := 0, talktime := 0, completed := 0, abandoned := 0
          servicelevel := 0, servicelevelperf := 0, servicelevelperf2 := 0
          weight := 0 },
       RespEvent.queueMember
        { name := "x", location := "SIP/1", stateinterface := "SIP/1"
          membership := "static", penalty := 0, callstaken := 0, lastcall := 0
          lastpause := 0, logintime := 0, incall := 0, status := 1, paused := 0
          pausedreason := "", wrapuptime := 0 },
       RespEvent.queueMember
        { name := "y", location := "SIP/1", stateinterface := "SIP/1"
          membership := "static", penalty := 1, callstaken := 0, lastcall := 0
          lastpause := 0, logintime := 0, incall := 0, status := 1, paused := 0
          pausedreason := "", wrapuptime := 0 }] }

/-- A well-formed two-segment `QueueStatus` response. -/
def okResp : Response :=
  { response := "Success", message := none
    events := some
      [RespEvent.queueParams
        { queue := "A", max := 0, strategy := "ringall", calls := 0
          holdtime := 0, talktime := 0, completed := 0, abandoned := 0
          servicelevel := 0, servicelevelperf := 0, servicelevelperf2 := 0
          weight := 0 },
       RespEvent.queueMember
        { name := "x", location := "SIP/1", stateinterface := "SIP/1"
          membership := "static", penalty := 0, callstaken := 0, lastcall := 0
          lastpause := 0, logintime := 0, incall := 0, status := 1, paused := 0
          pausedreason := "", wrapuptime := 0 },
       RespEvent.queueParams
        { queue := "B", max := 0, strategy := "ringall", calls := 0
          holdtime := 0, talktime := 0, completed := 0, abandoned := 0
          servicelevel := 0, servicelevelperf := 0, servicelevelperf2 := 0
          weight := 0 },
       RespEvent.queueMember
        { name := "y", location := "SIP/1", stateinterface := "SIP/1"
          membership := "static", penalty := 1, callstaken := 0, lastcall := 0
          lastpause := 0, logintime := 0, incall := 0, status := 1, paused := 0
          pausedreason := "", wrapuptime := 0 }] }

/-- A state with one armed, registered debounce timer and its pending
entry — the shape `cleanup` meets when shutdown interrupts a debounce. -/
def exSysArmed : Sys :=
  { exSys with
    pendingEvents := [("SIP/100", { payload := exPauseA, queues := ["A"] })]
    pendingTimeouts := [("SIP/100", 0)]
    timers := [{ id := 0, fireAt := 500, task := TimerTask.debounce "SIP/100" EventKind.pause }]
    nextId := 1 }

/-- The state shape `scheduleEventProcessing` leaves a quiescent state in:
one pending entry for `extension` and one armed debounce timer. -/
def midSys (s : Sys) (extension : String) (pe : PendingEvent) (tid fa : Nat)
    (kind : EventKind) : Sys :=
  { s with
    pendingEvents := [(extension, pe)]
    pendingTimeouts := [(extension, tid)]
    timers := [{ id := tid, fireAt := fa, task := TimerTask.debounce extension kind }]
    nextId := tid + 1 }

/-- The state `midSys` after the event loop has taken its timer off to fire it. -/
def midSysNT (s : Sys) (extension : String) (pe : PendingEvent) (tid : Nat) : Sys :=
  { s with
    pendingEvents := [(extension, pe)]
    pendingTimeouts := [(extension, tid)]
    timers := []
    nextId := tid + 1 }

/-- The pending entry left after further events merge in: payload is
last-writer-wins, queue set accumulates first occurrences. -/
def finalPe (pe : PendingEvent) : List (Nat × EventKind × RawEvent) → PendingEvent
  | [] => pe
  | x :: rest => finalPe { payload := x.2.2, queues := pushNew pe.queues x.2.2.queue } rest

/-- The event kind carried by the last-armed debounce timer. -/
def finalKind (kind : EventKind) : List (Nat × EventKind × RawEvent) → EventKind
  | [] => kind
  | x :: rest => finalKind x.2.1 rest

/-! ### Helper lemmas: JS maps -/

theorem mapGet_set_self {α : Type} (m : JSMap α) (k : String) (v : α) :
    mapGet (mapSet m k v) k = some v := by
  induction m with
  | nil => simp [mapSet, mapGet]
  | cons p rest ih =>
    by_cases h : p.1 = k
    · simp [mapSet, mapGet, h]
    · simp [mapSet, mapGet, h, ih]

theorem mapGet_set_ne {α : Type} (m : JSMap α) (k k' : String) (v : α) (h : k' ≠ k) :
    mapGet (mapSet m k v) k' = mapGet m k' := by
  induction m with
  | nil => simp [mapSet, mapGet, Ne.symm h]
  | cons p rest ih =>
    by_cases hp : p.1 = k
    · simp [mapSet, mapGet, hp, h, Ne.symm h]
    · by_cases hp' : p.1 = k'
      · simp [mapSet, mapGet, hp, hp', h]
      · simp [mapSet, mapGet, hp, hp', ih]

theorem mem_mapSet {α : Type} {m : JSMap α} {k : String} {v : α} {p : String × α}
    (h : p ∈ mapSet m k v) : p = (k, v) ∨ p ∈ m := by
  induction m with
  | nil => simpa [mapSet] using h
  | cons q rest ih =>
    by_cases hq : q.1 = k
    · simp only [mapSet, hq, beq_self_eq_true, if_true, List.mem_cons] at h
      rcases h with h | h
      · exact Or.inl h
      · exact Or.inr (List.mem_cons_of_mem _ h)
    · simp only [mapSet, beq_iff_eq, hq, if_false, List.mem_cons] at h
      rcases h with h | h
      · exact Or.inr (by simp [h])
      · rcases ih h with h' | h'
        · exact Or.inl h'
        · exact Or.inr (List.mem_cons_of_mem _ h')

theorem mapGet_mem {α : Type} {m : JSMap α} {k : String} {v : α}
    (h : mapGet m k = some v) : (k, v) ∈ m := by
  induction m with
  | nil => simp [mapGet] at h
  | cons p rest ih =>
    by_cases hp : p.1 = k
    · simp only [mapGet, hp, beq_self_eq_true, if_true, Option.some.injEq] at h
      subst h
      exact by simp [← hp]
    · simp only [mapGet, beq_iff_eq, hp, if_false] at h
      exact List.mem_cons_of_mem _ (ih h)

/-! ### Helper lemmas: JS arrays -/

theorem jsFindIndex_spec {α : Type} (p : α → Bool) :
    ∀ (l : List α) (i : Nat), jsFindIndex p l = some i →
      ∃ a, l.get? i = some a ∧ p a = true := by
  intro l
  induction l with
  | nil => intro i h; simp [jsFindIndex] at h
  | cons x rest ih =>
    intro i h
    by_cases hx : p x
    · simp only [jsFindIndex, hx, if_true, Option.some.injEq] at h
      subst h
      exact ⟨x, rfl, hx⟩
    · cases hr : jsFindIndex p rest with
      | none => simp [jsFindIndex, hx, hr] at h
      | some j =>
        simp [jsFindIndex, hx, hr] at h
        subst h
        rcases ih j hr with ⟨a, ha, hpa⟩
        exact ⟨a, by simpa using ha, hpa⟩

theorem setAt_eq_of_get? {α : Type} :
    ∀ (l : List α) (i : Nat) (a : α), l.get? i = some a → setAt l i a = l := by
  intro l
  induction l with
  | nil => intro i a h; simp at h
  | cons x rest ih =>
    intro i a h
    cases i with
    | zero => simp_all [setAt]
    | succ n =>
      simp only [List.get?] at h
      simp [setAt, ih n a h]

theorem get?_setAt_ne {α : Type} :
    ∀ (l : List α) (i j : Nat) (a : α), j ≠ i → (setAt l i a).get? j = l.get? j := by
  intro l
  induction l with
  | nil => intro i j a _; simp [setAt]
  | cons x rest ih =>
    intro i j a hji
    cases i with
    | zero =>
      cases j with
      | zero => exact absurd rfl hji
      | succ m => simp [setAt]
    | succ n =>
      cases j with
      | zero => simp [setAt]
      | succ m => simpa [setAt] using ih n m a (by omega)

theorem get?_setAt_self {α : Type} :
    ∀ (l : List α) (i : Nat) (a b : α), l.get? i = some b → (setAt l i a).get? i = some a := by
  intro l
  induction l with
  | nil => intro i a b h; simp at h
  | cons x rest ih =>
    intro i a b h
    cases i with
    | zero => simp [setAt]
    | succ n =>
      simp only [List.get?] at h
      simpa [setAt] using ih n a b h

theorem map_setAt {α β : Type} (f : α → β) :
    ∀ (l : List α) (i : Nat) (a : α), (setAt l i a).map f = setAt (l.map f) i (f a) := by
  intro l
  induction l with
  | nil => intro i a; simp [setAt]
  | cons x rest ih =>
    intro i a
    cases i with
    | zero => simp [setAt]
    | succ n => simp [setAt, ih]

theorem map_removeAt {α β : Type} (f : α → β) :
    ∀ (l : List α) (i : Nat), (removeAt l i).map f = removeAt (l.map f) i := by
  intro l
  induction l with
  | nil => intro i; simp [removeAt]
  | cons x rest ih =>
    intro i
    cases i with
    | zero => simp [removeAt]
    | succ n => simp [removeAt, ih]

theorem nodupBool_iff (l : List String) : nodupBool l = true ↔ l.Nodup := by
  induction l with
  | nil => simp [nodupBool]
  | cons x rest ih => simp [nodupBool, ih, List.nodup_cons]

theorem removeAt_sublist {α : Type} : ∀ (l : List α) (i : Nat), List.Sublist (removeAt l i) l := by
  intro l
  induction l with
  | nil => intro i; simp [removeAt]
  | cons x rest ih =>
    intro i
    cases i with
    | zero => exact List.sublist_cons_self x rest
    | succ n => exact List.Sublist.cons₂ x (ih n)

theorem nodupBool_removeAt (l : List String) (i : Nat)
    (h : nodupBool l = true) : nodupBool (removeAt l i) = true := by
  rw [nodupBool_iff] at h ⊢
  exact h.sublist (removeAt_sublist l i)

theorem nodupBool_append_singleton (l : List String) (x : String)
    (h : nodupBool l = true) (hx : l.contains x = false) :
    nodupBool (l ++ [x]) = true := by
  rw [nodupBool_iff] at h ⊢
  have hx' : x ∉ l := by simpa using hx
  simp [List.nodup_append, h, hx']

theorem any_map_extension (l : List Member) (x : String) :
    (l.any fun m => m.extension == x) = ((l.map Member.extension).any fun s => s == x) := by
  induction l with
  | nil => rfl
  | cons m rest ih => simp [ih]

theorem jsFind_of_any {α : Type} (p : α → Bool) :
    ∀ l : List α, l.any p = true → ∃ x, jsFind p l = some x ∧ p x = true := by
  intro l
  induction l with
  | nil => intro h; simp at h
  | cons x rest ih =>
    intro h
    by_cases hx : p x
    · exact ⟨x, by simp [jsFind, hx], hx⟩
    · simp only [List.any_cons, hx, Bool.false_or] at h
      rcases ih h with ⟨y, hy, hpy⟩
      exact ⟨y, by simp [jsFind, hx, hy], hpy⟩

theorem jsFind_none_of_any {α : Type} (p : α → Bool) :
    ∀ l : List α, l.any p = false → jsFind p l = none := by
  intro l
  induction l with
  | nil => intro _; rfl
  | cons x rest ih =>
    intro h
    simp only [List.any_cons, Bool.or_eq_false_iff] at h
    simp [jsFind, h.1, ih h.2]

/-! ### Lemmas about the coalesced-event application -/

theorem applyEventToQueue_extensions (eventType : EventKind) (event : RawEvent) (q : Queue) :
    (applyEventToQueue eventType event q).members.map Member.extension
      = q.members.map Member.extension := by
  cases hidx : jsFindIndex (fun m => m.extension == event.interface) q.members with
  | none => simp [applyEventToQueue, hidx]
  | some i =>
    rcases jsFindIndex_spec _ q.members i hidx with ⟨a, ha, hpa⟩
    have hext : a.extension = event.interface := by simpa using hpa
    cases eventType with
    | status =>
      simp only [applyEventToQueue, hidx, ha]
      rw [map_setAt]
      apply setAt_eq_of_get?
      rw [List.get?_map, ha]
      simp [memberFromRaw, hext]
    | pause =>
      simp only [applyEventToQueue, hidx, ha]
      rw [map_setAt]
      apply setAt_eq_of_get?
      rw [List.get?_map, ha]
      rfl

theorem applyToQueues_profile (eventType : EventKind) (event : RawEvent) :
    ∀ (queueNames : List String) (m : JSMap Queue) (qn : String),
      (mapGet (applyToQueues eventType event queueNames m) qn).map
          (fun q => q.members.map Member.extension)
        = (mapGet m qn).map (fun q => q.members.map Member.extension) := by
  intro queueNames
  induction queueNames with
  | nil => intro m qn; rfl
  | cons q0 rest ih =>
    intro m qn
    have hstep : applyToQueues eventType event (q0 :: rest) m
        = applyToQueues eventType event rest
            (match mapGet m q0 with
             | none => m
             | some q => mapSet m q0 (applyEventToQueue eventType event q)) := by
      simp [applyToQueues]
    rw [hstep]
    cases hq0 : mapGet m q0 with
    | none => simp only [hq0]; exact ih m qn
    | some q =>
      simp only [hq0]
      rw [ih (mapSet m q0 (applyEventToQueue eventType event q)) qn]
      by_cases hqn : qn = q0
      · subst hqn
        rw [mapGet_set_self, hq0]
        simp [applyEventToQueue_extensions]
      · rw [mapGet_set_ne _ _ _ _ hqn]

theorem queueHasMember_applyToQueues (eventType : EventKind) (event : RawEvent)
    (queueNames : List String) (m : JSMap Queue) (qn x : String) :
    queueHasMember (applyToQueues eventType event queueNames m) qn x
      = queueHasMember m qn x := by
  have hp := applyToQueues_profile eventType event queueNames m qn
  unfold queueHasMember
  cases h1 : mapGet (applyToQueues eventType event queueNames m) qn with
  | none =>
    cases h2 : mapGet m qn with
    | none => rfl
    | some q => rw [h1, h2] at hp; simp at hp
  | some q1 =>
    cases h2 : mapGet m qn with
    | none => rw [h1, h2] at hp; simp at hp
    | some q2 =>
      rw [h1, h2] at hp
      simp only [Option.map_some', Option.some.injEq] at hp
      show q1.members.any _ = q2.members.any _
      rw [any_map_extension, any_map_extension, hp]

theorem firstQueueHasMember_applyToQueues (eventType : EventKind) (event : RawEvent)
    (queueNames l : List String) (m : JSMap Queue) (x : String) :
    firstQueueHasMember (applyToQueues eventType event queueNames m) l x
      = firstQueueHasMember m l x := by
  cases l with
  | nil => rfl
  | cons q0 rest => exact queueHasMember_applyToQueues eventType event queueNames m q0 x

/-- The state component of `processPendingEvent` when a pending entry
exists. -/
theorem processPendingEvent_fst (s : Sys) (extension : String) (eventType : EventKind)
    (pe : PendingEvent) (hpe : mapGet s.pendingEvents extension = some pe) :
    (processPendingEvent s extension eventType).1
      = { s with
          pendingEvents := mapDelete s.pendingEvents extension
          pendingTimeouts := mapDelete s.pendingTimeouts extension
          queues := applyToQueues eventType pe.payload pe.queues s.queues } := by
  simp only [processPendingEvent, hpe]

/-- The emissions of `processPendingEvent` when the pending entry exists
but the first-queue guard fails: only `queuesUpdated`. -/
theorem processPendingEvent_no_merged (s : Sys) (extension : String) (eventType : EventKind)
    (pe : PendingEvent) (hpe : mapGet s.pendingEvents extension = some pe)
    (hgate : firstQueueHasMember s.queues pe.queues pe.payload.interface = false) :
    (processPendingEvent s extension eventType).2
      = [Notification.queuesUpdated
          (mapValues (applyToQueues eventType pe.payload pe.queues s.queues))] := by
  have hgate' : firstQueueHasMember
      (applyToQueues eventType pe.payload pe.queues s.queues) pe.queues
      pe.payload.interface = false := by
    rw [firstQueueHasMember_applyToQueues]; exact hgate
  simp only [processPendingEvent, hpe]
  cases hhd : pe.queues with
  | nil => simp
  | cons q0 rest =>
    rw [hhd] at hgate'
    simp only [firstQueueHasMember] at hgate'
    unfold queueHasMember at hgate'
    cases hq0 : mapGet (applyToQueues eventType pe.payload (q0 :: rest) s.queues) q0 with
    | none =>
      rw [hq0] at hgate'
      simp [hq0]
    | some firstQueue =>
      rw [hq0] at hgate'
      simp only [] at hgate'
      have hfind := jsFind_none_of_any (fun m => m.extension == pe.payload.interface)
        firstQueue.members hgate'
      simp [hq0, hfind]

/-- The emissions of `processPendingEvent` when the pending entry exists
and the first-queue guard holds: exactly one merged notification, then
`queuesUpdated`. -/
theorem processPendingEvent_merged (s : Sys) (extension : String) (eventType : EventKind)
    (pe : PendingEvent) (hpe : mapGet s.pendingEvents extension = some pe)
    (hgate : firstQueueHasMember s.queues pe.queues pe.payload.interface = true) :
    ∃ mem : Member,
      (processPendingEvent s extension eventType).2
        = [mkMerged eventType pe.queues mem mem.paused,
           Notification.queuesUpdated
            (mapValues (applyToQueues eventType pe.payload pe.queues s.queues))] := by
  have hgate' : firstQueueHasMember
      (applyToQueues eventType pe.payload pe.queues s.queues) pe.queues
      pe.payload.interface = true := by
    rw [firstQueueHasMember_applyToQueues]; exact hgate
  simp only [processPendingEvent, hpe]
  cases hhd : pe.queues with
  | nil =>
    rw [hhd] at hgate
    simp [firstQueueHasMember] at hgate
  | cons q0 rest =>
    rw [hhd] at hgate'
    simp only [firstQueueHasMember] at hgate'
    unfold queueHasMember at hgate'
    cases hq0 : mapGet (applyToQueues eventType pe.payload (q0 :: rest) s.queues) q0 with
    | none =>
      rw [hq0] at hgate'
      simp at hgate'
    | some firstQueue =>
      rw [hq0] at hgate'
      simp only [] at hgate'
      rcases jsFind_of_any (fun m => m.extension == pe.payload.interface)
        firstQueue.members hgate' with ⟨mem, hfind, _⟩
      exact ⟨mem, by simp [hq0, hfind]⟩

/-! ### Claim theorems -/

/-- C2: a full resync is atomic — on any gateway error `updateQueues`
leaves the whole state (in particular the queue map) unchanged and emits
nothing; on a response carrying an events list the queue map is replaced
wholesale by the map built from that response (an expression independent of
the prior state), and `queuesUpdated` is emitted. -/
theorem updateQueues_atomic (s : Sys) (err : SendErr) (resp : Response)
    (evs : List RespEvent) :
    updateQueues s (Except.error err) = (s, []) ∧
    (resp.events = some evs →
      updateQueues s (Except.ok resp)
        = ({ s with queues := buildQueues evs },
           [Notification.queuesUpdated (mapValues (buildQueues evs))])) := by
  constructor
  · rfl
  · intro h
    simp [updateQueues, h]

/-- Witness for C2 at concrete inputs. -/
theorem updateQueues_atomic_witness :
    updateQueues exSys (Except.error SendErr.timeout) = (exSys, []) ∧
    (updateQueues exSys (Except.ok okResp)).1.queues
      = buildQueues (okResp.events.getD []) := by
  have h := updateQueues_atomic exSys SendErr.timeout okResp (okResp.events.getD [])
  refine ⟨h.1, ?_⟩
  rw [h.2 rfl]

/-- C6: `_send`'s outcome classification — `NotConnected` whenever the
connection state is not Connected; otherwise `Timeout` when the timer wins
the race, `InvalidResponse` on an empty/null response, `RemoteError`
carrying the remote message (when present and non-empty; a default message
otherwise) on an `'Error'` response, and success in every other case. -/
theorem send_outcomes (out : TransportOutcome) (r : Response) (msg : String) :
    sendResult false out = Except.error SendErr.notConnected ∧
    sendResult true TransportOutcome.noResponse = Except.error SendErr.timeout ∧
    sendResult true (TransportOutcome.response none) = Except.error SendErr.invalidResponse ∧
    (r.response = "Error" →
      sendResult true (TransportOutcome.response (some r))
        = Except.error (SendErr.remoteError (jsOr r.message "Erro desconhecido"))) ∧
    (r.response = "Error" → r.message = some msg → msg ≠ "" →
      sendResult true (TransportOutcome.response (some r))
        = Except.error (SendErr.remoteError msg)) ∧
    (r.response ≠ "Error" →
      sendResult true (TransportOutcome.response (some r)) = Except.ok r) := by
  refine ⟨rfl, rfl, rfl, ?_, ?_, ?_⟩
  · intro h
    simp [sendResult, h]
  · intro h hm hne
    simp [sendResult, h, jsOr, hm, hne]
  · intro h
    simp [sendResult, h]

/-- Witness for C6 at concrete inputs. -/
theorem send_outcomes_witness :
    sendResult false TransportOutcome.noResponse = Except.error SendErr.notConnected ∧
    sendResult true (TransportOutcome.response
        (some { response := "Error", message := some "no such queue", events := none }))
      = Except.error (SendErr.remoteError "no such queue") ∧
    sendResult true (TransportOutcome.response (some okResp)) = Except.ok okResp := by
  have h := send_outcomes TransportOutcome.noResponse
    { response := "Error", message := some "no such queue", events := none } "no such queue"
  refine ⟨h.1, h.2.2.2.2.1 rfl rfl (by decide), ?_⟩
  have h2 := send_outcomes TransportOutcome.noResponse okResp "x"
  exact h2.2.2.2.2.2 (by decide)

/-- C7: each mutating operation returns `true` exactly when its single
gateway call yields a response with a `"Success"` outcome, and `false` on
every failure path (including not being connected); each is a total
boolean function, so no error ever reaches the caller. -/
theorem mutators_success_iff (c : Bool) (out : TransportOutcome) :
    (pauseMember c out = true
      ↔ c = true ∧ ∃ r, out = TransportOutcome.response (some r) ∧ r.response = "Success") ∧
    (unpauseMember c out = true
      ↔ c = true ∧ ∃ r, out = TransportOutcome.response (some r) ∧ r.response = "Success") ∧
    (addMemberToQueue c out = true
      ↔ c = true ∧ ∃ r, out = TransportOutcome.response (some r) ∧ r.response = "Success") ∧
    (removeMemberFromQueue c out = true
      ↔ c = true ∧ ∃ r, out = TransportOutcome.response (some r) ∧ r.response = "Success") := by
  have key : ∀ f : Bool → TransportOutcome → Bool,
      (∀ c' out', f c' out' =
        (match sendResult c' out' with
         | .error _ => false
         | .ok response => response.response == "Success")) →
      (f c out = true
        ↔ c = true ∧ ∃ r, out = TransportOutcome.response (some r) ∧ r.response = "Success") := by
    intro f hf
    rw [hf]
    cases c with
    | false => simp [sendResult]
    | true =>
      cases out with
      | noResponse => simp [sendResult]
      | response ro =>
        cases ro with
        | none => simp [sendResult]
        | some r =>
          by_cases hr : r.response = "Error"
          · simp [sendResult, hr]
          · simp [sendResult, hr]
  exact ⟨key pauseMember (fun _ _ => rfl), key unpauseMember (fun _ _ => rfl),
    key addMemberToQueue (fun _ _ => rfl), key removeMemberFromQueue (fun _ _ => rfl)⟩

/-- Witness for C7 at concrete inputs: success yields `true`; a
not-connected call and a remote error both yield `false`. -/
theorem mutators_success_iff_witness :
    pauseMember true (TransportOutcome.response (some okResp)) = true ∧
    pauseMember false TransportOutcome.noResponse = false ∧
    removeMemberFromQueue true TransportOutcome.noResponse = false := by
  refine ⟨?_, ?_, ?_⟩
  · exact (mutators_success_iff true (TransportOutcome.response (some okResp))).1.mpr
      ⟨rfl, okResp, rfl, rfl⟩
  · have h := (mutators_success_iff false TransportOutcome.noResponse).1
    cases hp : pauseMember false TransportOutcome.noResponse
    · rfl
    · exact absurd ((h.mp hp).1) (by decide)
  · have h := (mutators_success_iff true TransportOutcome.noResponse).2.2.2
    cases hp : removeMemberFromQueue true TransportOutcome.noResponse
    · rfl
    · rcases (h.mp hp).2 with ⟨r, hr, _⟩
      cases hr

/-- C4: pause events for queues `"A"` and `"B"` (same extension, 100 ms
apart, `paused = 1`, newest reason `"Lunch"`), with the clock advanced to
one debounce window after the second event, produce exactly one
`memberPauseChanged` notification whose queue list is `["A", "B"]`, whose
member snapshot (taken from queue `"A"`, the first contributor) carries
`paused = 1` and `pausedReason = "Lunch"` from the last-writer-wins
payload, and whose `paused` field is that member's flag. -/
theorem pause_coalescing_scenario :
    ((runEvents exSys [(0, EventKind.pause, exPauseA), (100, EventKind.pause, exPauseB)] 600).2.filter
        isMerged)
      = [Notification.memberPauseChanged ["A", "B"] exMemberPaused 1] ∧
    exMemberPaused.paused = 1 ∧ exMemberPaused.pausedReason = "Lunch" := by
  refine ⟨?_, rfl, rfl⟩
  rfl

/-- C10: when a pending event's timer fires but the first queue of its
affected-queue list is absent from the cache or no longer contains the
event's extension, no merged member notification is emitted at all (even
though every other affected queue is still updated), while the generic
`queuesUpdated` notification is still emitted. -/
theorem first_queue_gate (s : Sys) (extension : String) (eventType : EventKind)
    (pe : PendingEvent) (hpe : mapGet s.pendingEvents extension = some pe)
    (hgate : firstQueueHasMember s.queues pe.queues pe.payload.interface = false) :
    (processPendingEvent s extension eventType).2
      = [Notification.queuesUpdated
          (mapValues ((processPendingEvent s extension eventType).1.queues))] := by
  rw [processPendingEvent_no_merged s extension eventType pe hpe hgate,
    processPendingEvent_fst s extension eventType pe hpe]

/-- Witness for C10: the pending event's first queue `"Z"` is absent while
its second queue `"B"` is present and updated; only `queuesUpdated` fires. -/
theorem first_queue_gate_witness :
    (processPendingEvent
        { exSys with pendingEvents := [("SIP/100", { payload := exPauseB, queues := ["Z", "B"] })] }
        "SIP/100" EventKind.pause).2
      = [Notification.queuesUpdated
          (mapValues ((processPendingEvent
            { exSys with pendingEvents := [("SIP/100", { payload := exPauseB, queues := ["Z", "B"] })] }
            "SIP/100" EventKind.pause).1.queues))] := by
  exact first_queue_gate _ "SIP/100" EventKind.pause
    { payload := exPauseB, queues := ["Z", "B"] } (by decide) (by decide)

/-- Counterexample to C1 as stated: a single pause event (N = 1, the gap
condition vacuous) whose queue is absent from the cache produces zero
merged notifications when the timer fires, not exactly one. -/
theorem coalescing_counterexample :
    ((runEvents baseSys [(0, EventKind.pause, exPauseA)] 500).2.filter isMerged).length ≠ 1 := by
  decide

/-- Counterexample to C3 as stated: a `QueueStatus` response whose single
queue segment lists the same location twice drives a successful full
resync from a duplicate-free state straight into a state whose queue
`"A"` holds two members with extension `"SIP/1"`. -/
theorem uniqueness_counterexample :
    queuesNodup exSys = true ∧
    queuesNodup (updateQueues exSys (Except.ok dupResp)).1 = false := by
  decide

theorem setAt_length {α : Type} :
    ∀ (l : List α) (i : Nat) (a : α), (setAt l i a).length = l.length := by
  intro l
  induction l with
  | nil => intro i a; rfl
  | cons x rest ih =>
    intro i a
    cases i with
    | zero => rfl
    | succ n => simp [setAt, ih]

theorem jsFindIndex_eq_none_iff {α : Type} (p : α → Bool) :
    ∀ l : List α, jsFindIndex p l = none ↔ l.any p = false := by
  intro l
  induction l with
  | nil => simp [jsFindIndex]
  | cons x rest ih =>
    by_cases hx : p x
    · simp [jsFindIndex, hx]
    · simp only [jsFindIndex, hx, if_false, List.any_cons, Bool.or_eq_false_iff]
      constructor
      · intro h
        cases hr : jsFindIndex p rest with
        | none => exact ⟨by simp [hx], ih.mp hr⟩
        | some j => simp [hr] at h
      · intro h
        simp [ih.mpr h.2]

/-- C5: applying a coalesced Pause event to a member found in an affected
queue changes only `paused`, `pausedReason` and `lastPause`; every other
field keeps its previous value (the written record is literally the old
record with those three fields replaced), the record stays at the same
index, every other list position is untouched, and the list keeps its
length. -/
theorem pause_application_frame (event : RawEvent) (q : Queue) (i : Nat)
    (hidx : jsFindIndex (fun m => m.extension == event.interface) q.members = some i) :
    ∃ oldMember : Member, q.members.get? i = some oldMember ∧
      (applyEventToQueue EventKind.pause event q).members.get? i
        = some { oldMember with
                 paused := event.paused
                 pausedReason := event.pausedreason
                 lastPause := event.lastpause } ∧
      ({ oldMember with
         paused := event.paused
         pausedReason := event.pausedreason
         lastPause := event.lastpause } : Member).name = oldMember.name ∧
      ({ oldMember with
         paused := event.paused
         pausedReason := event.pausedreason
         lastPause := event.lastpause } : Member).extension = oldMember.extension ∧
      ({ oldMember with
         paused := event.paused
         pausedReason := event.pausedreason
         lastPause := event.lastpause } : Member).stateInterface = oldMember.stateInterface ∧
      ({ oldMember with
         paused := event.paused
         pausedReason := event.pausedreason
         lastPause := event.lastpause } : Member).membership = oldMember.membership ∧
      ({ oldMember with
         paused := event.paused
         pausedReason := event.pausedreason
         lastPause := event.lastpause } : Member).penalty = oldMember.penalty ∧
      ({ oldMember with
         paused := event.paused
         pausedReason := event.pausedreason
         lastPause := event.lastpause } : Member).callsTaken = oldMember.callsTaken ∧
      ({ oldMember with
         paused := event.paused
         pausedReason := event.pausedreason
         lastPause := event.lastpause } : Member).lastCall = oldMember.lastCall ∧
      ({ oldMember with
         paused := event.paused
         pausedReason := event.pausedreason
         lastPause := event.lastpause } : Member).loginTime = oldMember.loginTime ∧
      ({ oldMember with
         paused := event.paused
         pausedReason := event.pausedreason
         lastPause := event.lastpause } : Member).inCall = oldMember.inCall ∧
      ({ oldMember with
         paused := event.paused
         pausedReason := event.pausedreason
         lastPause := event.lastpause } : Member).status = oldMember.status ∧
      ({ oldMember with
         paused := event.paused
         pausedReason := event.pausedreason
         lastPause := event.lastpause } : Member).wrapupTime = oldMember.wrapupTime ∧
      (∀ j, j ≠ i →
        (applyEventToQueue EventKind.pause event q).members.get? j = q.members.get? j) ∧
      (applyEventToQueue EventKind.pause event q).members.length = q.members.length := by
  rcases jsFindIndex_spec _ q.members i hidx with ⟨oldMember, ha, _⟩
  refine ⟨oldMember, ha, ?_, rfl, rfl, rfl, rfl, rfl, rfl, rfl, rfl, rfl, rfl, rfl, ?_, ?_⟩
  · simp only [applyEventToQueue, hidx, ha]
    exact get?_setAt_self q.members i _ oldMember ha
  · intro j hj
    simp only [applyEventToQueue, hidx, ha]
    exact get?_setAt_ne q.members i j _ hj
  · simp only [applyEventToQueue, hidx, ha]
    exact setAt_length q.members i _

/-- Witness for C5 at a concrete queue and pause payload. -/
theorem pause_application_frame_witness :
    jsFindIndex (fun m => m.extension == exPauseB.interface) exQueueA.members = some 0 ∧
    (applyEventToQueue EventKind.pause exPauseB exQueueA).members.get? 0
      = some exMemberPaused := by
  refine ⟨by decide, ?_⟩
  rcases pause_application_frame exPauseB exQueueA 0 (by decide) with
    ⟨old, hold, hnew, _⟩
  have : old = exMember := by
    have h2 : some old = some exMember := by rw [← hold]; decide
    exact Option.some.inj h2
  subst this
  exact hnew

set_option maxRecDepth 4000 in
set_option maxRecDepth 8000 in
/-- C8: member-added handling is idempotent.  When the extension is
already present in the named queue the state is returned unchanged (so
exactly the existing record for that extension remains — under the
uniqueness invariant, exactly one) and nothing is emitted; when it is
absent, exactly one record is appended and `memberAdded` is emitted exactly
once (followed by the cache-updated notification); a missing queue is
lazily created and behaves as the absent case. -/
theorem member_added_idempotent (s : Sys) (event : RawEvent) :
    (∀ q, mapGet s.queues event.queue = some q →
      q.members.any (fun m => m.extension == event.interface) = true →
      handleQueueMemberAdded s event = (s, [])) ∧
    (∀ q, mapGet s.queues event.queue = some q →
      q.members.any (fun m => m.extension == event.interface) = true →
      nodupBool (q.members.map Member.extension) = true →
      (q.members.map Member.extension).count event.interface = 1) ∧
    (∀ q, mapGet s.queues event.queue = some q →
      q.members.any (fun m => m.extension == event.interface) = false →
      handleQueueMemberAdded s event
        = ({ s with queues := mapSet s.queues event.queue
                      ({ q with members := q.members ++ [memberFromRaw event] }) },
           [Notification.memberAdded event.queue (memberFromRaw event),
            Notification.queuesUpdated (mapValues (mapSet s.queues event.queue
              ({ q with members := q.members ++ [memberFromRaw event] })))])) ∧
    (mapGet s.queues event.queue = none →
      handleQueueMemberAdded s event
        = ({ s with queues := mapSet (mapSet s.queues event.queue (defaultQueue event.queue))
                      event.queue ({ defaultQueue event.queue with members := [memberFromRaw event] }) },
           [Notification.memberAdded event.queue (memberFromRaw event),
            Notification.queuesUpdated (mapValues
              (mapSet (mapSet s.queues event.queue (defaultQueue event.queue))
                event.queue ({ defaultQueue event.queue with members := [memberFromRaw event] })))])) := by
  refine ⟨?_, ?_, ?_, ?_⟩
  · intro q hq hany
    have hne : jsFindIndex (fun m => m.extension == (memberFromRaw event).extension)
        q.members ≠ none := by
      intro hnone
      rw [jsFindIndex_eq_none_iff] at hnone
      have : (true : Bool) = false := hany.symm.trans hnone
      simp at this
    cases hidx : jsFindIndex (fun m => m.extension == (memberFromRaw event).extension)
        q.members with
    | none => exact absurd hidx hne
    | some i => simp only [handleQueueMemberAdded, hq, hidx]
  · intro q hq hany hnd
    rw [nodupBool_iff] at hnd
    have hmem : event.interface ∈ q.members.map Member.extension := by
      rw [any_map_extension] at hany
      rcases List.any_eq_true.mp hany with ⟨x, hx, hbeq⟩
      have hxe : x = event.interface := by simpa using hbeq
      exact hxe ▸ hx
    exact List.count_eq_one_of_mem hnd hmem
  · intro q hq hany
    have hidx : jsFindIndex (fun m => m.extension == (memberFromRaw event).extension)
        q.members = none := by
      rw [jsFindIndex_eq_none_iff]
      exact hany
    simp only [handleQueueMemberAdded, hq]
    simp only [hidx]
  · intro hq
    simp only [handleQueueMemberAdded, hq]
    rfl

/-- Witness for C8: adding `"SIP/100"` to queue `"A"` (already present) is
a silent no-op; adding it to absent queue `"C"` creates the queue, appends
one record and emits `memberAdded` once. -/
theorem member_added_idempotent_witness :
    handleQueueMemberAdded exSys exPauseA = (exSys, []) ∧
    (handleQueueMemberAdded exSys { exPauseA with queue := "C" }).2
      = [Notification.memberAdded "C" (memberFromRaw { exPauseA with queue := "C" }),
         Notification.queuesUpdated (mapValues
          (mapSet (mapSet exSys.queues "C" (defaultQueue "C")) "C"
            { defaultQueue "C" with members := [memberFromRaw { exPauseA with queue := "C" }] }))] := by
  constructor
  · exact (member_added_idempotent exSys exPauseA).1 exQueueA (by decide) (by decide)
  · rw [(member_added_idempotent exSys { exPauseA with queue := "C" }).2.2.2 (by decide)]

/-! ### Uniqueness-invariant lemmas -/

theorem mapSet_preserves_nodup (m : JSMap Queue) (k : String) (v : Queue)
    (hm : m.all (fun p => nodupBool (p.2.members.map Member.extension)) = true)
    (hv : nodupBool (v.members.map Member.extension) = true) :
    (mapSet m k v).all (fun p => nodupBool (p.2.members.map Member.extension)) = true := by
  rw [List.all_eq_true] at hm ⊢
  intro p hp
  rcases mem_mapSet hp with h | h
  · rw [h]
    exact hv
  · exact hm p h

theorem mapGet_nodup (m : JSMap Queue) (k : String) (q : Queue)
    (hm : m.all (fun p => nodupBool (p.2.members.map Member.extension)) = true)
    (hq : mapGet m k = some q) :
    nodupBool (q.members.map Member.extension) = true :=
  List.all_eq_true.mp hm (k, q) (mapGet_mem hq)

theorem applyToQueues_preserves_nodup (eventType : EventKind) (event : RawEvent) :
    ∀ (queueNames : List String) (m : JSMap Queue),
      m.all (fun p => nodupBool (p.2.members.map Member.extension)) = true →
      (applyToQueues eventType event queueNames m).all
        (fun p => nodupBool (p.2.members.map Member.extension)) = true := by
  intro queueNames
  induction queueNames with
  | nil => intro m hm; exact hm
  | cons q0 rest ih =>
    intro m hm
    have hstep : applyToQueues eventType event (q0 :: rest) m
        = applyToQueues eventType event rest
            (match mapGet m q0 with
             | none => m
             | some q => mapSet m q0 (applyEventToQueue eventType event q)) := by
      simp [applyToQueues]
    rw [hstep]
    cases hq0 : mapGet m q0 with
    | none => exact ih m hm
    | some q =>
      apply ih
      apply mapSet_preserves_nodup _ _ _ hm
      rw [applyEventToQueue_extensions]
      exact mapGet_nodup m q0 q hm hq0

theorem buildQueuesAux_nodup :
    ∀ (evs : List RespEvent) (m : JSMap Queue) (cur : Option String) (seen : List String),
      m.all (fun p => nodupBool (p.2.members.map Member.extension)) = true →
      (∀ qn, cur = some qn →
        ∃ q, mapGet m qn = some q ∧ q.members.map Member.extension = seen.reverse) →
      nodupBool seen = true →
      respMembersOkAux seen evs = true →
      (buildQueuesAux (m, cur) evs).1.all
        (fun p => nodupBool (p.2.members.map Member.extension)) = true := by
  intro evs
  induction evs with
  | nil => intro m cur seen hm _ _ _; exact hm
  | cons ev rest ih =>
    intro m cur seen hm hcur hseen hok
    cases ev with
    | queueParams f =>
      simp only [buildQueuesAux]
      simp only [respMembersOkAux] at hok
      apply ih (mapSet m f.queue (queueFromParams f)) (some f.queue) []
      · exact mapSet_preserves_nodup m f.queue (queueFromParams f) hm rfl
      · intro qn hqn
        cases hqn
        exact ⟨queueFromParams f, mapGet_set_self m f.queue (queueFromParams f), rfl⟩
      · rfl
      · exact hok
    | queueMember f =>
      simp only [respMembersOkAux, Bool.and_eq_true, Bool.not_eq_true'] at hok
      cases cur with
      | none =>
        simp only [buildQueuesAux]
        apply ih m none (f.location :: seen) hm (fun qn hqn => by cases hqn)
        · simp only [nodupBool, Bool.and_eq_true, Bool.not_eq_true']
          exact ⟨hok.1, hseen⟩
        · exact hok.2
      | some qn =>
        rcases hcur qn rfl with ⟨q, hq, hprof⟩
        simp only [buildQueuesAux, hq]
        apply ih _ (some qn) (f.location :: seen)
        · apply mapSet_preserves_nodup _ _ _ hm
          have hnotin : (q.members.map Member.extension).contains f.location = false := by
            rw [hprof]
            have : f.location ∉ seen.reverse := by
              rw [List.mem_reverse]
              exact by simpa using hok.1
            simpa using this
          have hqnd : nodupBool (q.members.map Member.extension) = true :=
            mapGet_nodup m qn q hm hq
          show nodupBool ((q.members ++ [memberFromResp f]).map Member.extension) = true
          rw [List.map_append]
          exact nodupBool_append_singleton _ _ hqnd hnotin
        · intro qn' hqn'
          cases hqn'
          refine ⟨_, mapGet_set_self _ _ _, ?_⟩
          show (q.members ++ [memberFromResp f]).map Member.extension
            = (f.location :: seen).reverse
          rw [List.map_append, hprof, List.reverse_cons]
          rfl
        · simp only [nodupBool, Bool.and_eq_true, Bool.not_eq_true']
          exact ⟨hok.1, hseen⟩
        · exact hok.2
    | otherEvent =>
      simp only [buildQueuesAux]
      simp only [respMembersOkAux] at hok
      exact ih m cur seen hm hcur hseen hok

/-- C3 (amended): the per-queue uniqueness of member extensions is
preserved by member-added handling, member-removed handling, coalesced
status/pause application, and by full resync both on any gateway error and
on any response that repeats no member location within one queue segment.
(An arbitrary response can violate it — see the counterexample.) -/
theorem member_uniqueness_preserved (s : Sys) (event : RawEvent) (extension : String)
    (eventType : EventKind) (err : SendErr) (resp : Response) (evs : List RespEvent)
    (hs : queuesNodup s = true) :
    queuesNodup (handleQueueMemberAdded s event).1 = true ∧
    queuesNodup (handleQueueMemberRemoved s event).1 = true ∧
    queuesNodup (processPendingEvent s extension eventType).1 = true ∧
    queuesNodup (updateQueues s (Except.error err)).1 = true ∧
    (resp.events = some evs → respMembersOk evs = true →
      queuesNodup (updateQueues s (Except.ok resp)).1 = true) := by
  refine ⟨?_, ?_, ?_, hs, ?_⟩
  · unfold queuesNodup at hs ⊢
    cases hq : mapGet s.queues event.queue with
    | some q =>
      cases hidx : jsFindIndex (fun m => m.extension == (memberFromRaw event).extension)
          q.members with
      | some i =>
        simp only [handleQueueMemberAdded, hq, hidx]
        exact hs
      | none =>
        have hnotin : (q.members.map Member.extension).contains
            (memberFromRaw event).extension = false := by
          rw [jsFindIndex_eq_none_iff] at hidx
          have : (memberFromRaw event).extension ∉ q.members.map Member.extension := by
            intro hmem
            rcases List.mem_map.mp hmem with ⟨mm, hmm, hext⟩
            have : q.members.any
                (fun m => m.extension == (memberFromRaw event).extension) = true :=
              List.any_eq_true.mpr ⟨mm, hmm, by simp [hext]⟩
            rw [this] at hidx
            cases hidx
          simpa using this
        simp only [handleQueueMemberAdded, hq]
        simp only [hidx]
        apply mapSet_preserves_nodup _ _ _ hs
        show nodupBool ((q.members ++ [memberFromRaw event]).map Member.extension) = true
        rw [List.map_append]
        exact nodupBool_append_singleton _ _ (mapGet_nodup s.queues event.queue q hs hq) hnotin
    | none =>
      simp only [handleQueueMemberAdded, hq]
      have h1 := mapSet_preserves_nodup s.queues event.queue (defaultQueue event.queue) hs rfl
      exact mapSet_preserves_nodup _ event.queue _ h1 rfl
  · unfold queuesNodup at hs ⊢
    cases hq : mapGet s.queues event.queue with
    | none => simp only [handleQueueMemberRemoved, hq]; exact hs
    | some q =>
      cases hidx : jsFindIndex (fun m => m.extension == event.interface) q.members with
      | none => simp only [handleQueueMemberRemoved, hq, hidx]; exact hs
      | some i =>
        rcases jsFindIndex_spec _ q.members i hidx with ⟨a, ha, _⟩
        simp only [handleQueueMemberRemoved, hq, hidx, ha]
        apply mapSet_preserves_nodup _ _ _ hs
        show nodupBool ((removeAt q.members i).map Member.extension) = true
        rw [map_removeAt]
        exact nodupBool_removeAt _ i (mapGet_nodup s.queues event.queue q hs hq)
  · unfold queuesNodup at hs ⊢
    cases hpe : mapGet s.pendingEvents extension with
    | none => simp only [processPendingEvent, hpe]; exact hs
    | some pe =>
      simp only [processPendingEvent, hpe]
      exact applyToQueues_preserves_nodup eventType pe.payload pe.queues s.queues hs
  · intro hev hok
    unfold queuesNodup
    simp only [updateQueues, hev]
    exact buildQueuesAux_nodup evs [] none [] rfl (fun qn hqn => by cases hqn) rfl hok

/-- Witness for C3 (amended) at concrete inputs, including a well-formed
two-segment resync response. -/
theorem member_uniqueness_preserved_witness :
    queuesNodup (handleQueueMemberAdded exSys exPauseA).1 = true ∧
    queuesNodup (updateQueues exSys (Except.ok okResp)).1 = true := by
  have h := member_uniqueness_preserved exSys exPauseA "SIP/100" EventKind.pause
    SendErr.timeout okResp (okResp.events.getD []) (by decide)
  exact ⟨h.1, h.2.2.2.2 rfl (by decide)⟩

/-! ### Shutdown lemmas -/

theorem cleanup_state (s : Sys) (hreg : timersRegistered s = true) :
    Quiescent (cleanup s).1 := by
  unfold timersRegistered at hreg
  rw [List.all_eq_true] at hreg
  have htimers : (cleanup s).1.timers = [] := by
    cases hct : s.connectionTimeout with
    | none =>
      cases hrt : s.reconnectTimeout with
      | none =>
        simp only [cleanup, hct, hrt]
        rw [List.eq_nil_iff_forall_not_mem]
        intro t ht
        rw [List.mem_filter] at ht
        rcases ht with ⟨hmem, hp⟩
        have := hreg t hmem
        simp only [hct, hrt, Bool.or_eq_true] at this
        rcases this with (h | h) | h
        · simp [h] at hp
        · simp at h
        · simp at h
      | some rtid =>
        simp only [cleanup, hct, hrt]
        rw [List.eq_nil_iff_forall_not_mem]
        intro t ht
        rw [List.mem_filter] at ht
        rcases ht with ⟨ht2, hp3⟩
        rw [List.mem_filter] at ht2
        rcases ht2 with ⟨hmem, hp2⟩
        have := hreg t hmem
        simp only [hct, hrt, Bool.or_eq_true] at this
        rcases this with (h | h) | h
        · simp [h] at hp3
        · simp at h
        · simp only [Option.some.injEq, beq_iff_eq] at h
          simp [h] at hp2
    | some ctid =>
      cases hrt : s.reconnectTimeout with
      | none =>
        simp only [cleanup, hct, hrt]
        rw [List.eq_nil_iff_forall_not_mem]
        intro t ht
        rw [List.mem_filter] at ht
        rcases ht with ⟨ht2, hp3⟩
        rw [List.mem_filter] at ht2
        rcases ht2 with ⟨hmem, hp1⟩
        have := hreg t hmem
        simp only [hct, hrt, Bool.or_eq_true] at this
        rcases this with (h | h) | h
        · simp [h] at hp3
        · simp only [Option.some.injEq, beq_iff_eq] at h
          simp [h] at hp1
        · simp at h
      | some rtid =>
        simp only [cleanup, hct, hrt]
        rw [List.eq_nil_iff_forall_not_mem]
        intro t ht
        rw [List.mem_filter] at ht
        rcases ht with ⟨ht2, hp3⟩
        rw [List.mem_filter] at ht2
        rcases ht2 with ⟨ht3, hp2⟩
        rw [List.mem_filter] at ht3
        rcases ht3 with ⟨hmem, hp1⟩
        have := hreg t hmem
        simp only [hct, hrt, Bool.or_eq_true] at this
        rcases this with (h | h) | h
        · simp [h] at hp3
        · simp only [Option.some.injEq, beq_iff_eq] at h
          simp [h] at hp1
        · simp only [Option.some.injEq, beq_iff_eq] at h
          simp [h] at hp2
  refine ⟨htimers, ?_, ?_, ?_, ?_, ?_, ?_⟩ <;>
    cases hct : s.connectionTimeout <;> cases hrt : s.reconnectTimeout <;>
      simp [cleanup, hct, hrt]

theorem step_preserves_quiescent (s : Sys) (hq : Quiescent s) (a : SysAction) :
    Quiescent (step s a).1 ∧ (step s a).1.queues = s.queues := by
  obtain ⟨h1, h2, h3, h4, h5, h6, h7⟩ := hq
  cases a with
  | deliver now resyncResp e =>
    have hstep : step s (SysAction.deliver now resyncResp e) = (s, []) := by
      simp [step, h5]
    rw [hstep]
    exact ⟨⟨h1, h2, h3, h4, h5, h6, h7⟩, rfl⟩
  | lifecycleClose now =>
    have hstep : step s (SysAction.lifecycleClose now) = (s, []) := by
      simp [step, h5]
    rw [hstep]
    exact ⟨⟨h1, h2, h3, h4, h5, h6, h7⟩, rfl⟩
  | fireTimers now =>
    have hstep : step s (SysAction.fireTimers now) = (s, []) := by
      simp [step, fireDue, h1, fireDueFuel]
    rw [hstep]
    exact ⟨⟨h1, h2, h3, h4, h5, h6, h7⟩, rfl⟩
  | apiConnect now =>
    have hstep : step s (SysAction.apiConnect now) = (s, []) := by
      simp [step, connect, h4]
    rw [hstep]
    exact ⟨⟨h1, h2, h3, h4, h5, h6, h7⟩, rfl⟩
  | uncaughtRefused now =>
    have hstep : step s (SysAction.uncaughtRefused now)
        = ({ s with isConnected := false }, [Notification.disconnected]) := by
      simp [step, handleDisconnection, h6, h7, h4]
    rw [hstep]
    exact ⟨⟨h1, h2, h3, h4, h5, h6, h7⟩, rfl⟩
  | apiCleanup =>
    have hstep : step s SysAction.apiCleanup
        = ({ s with shouldReconnect := false, timers := [], pendingEvents := []
                    pendingTimeouts := [], listenersAttached := false },
           [Notification.disconnected]) := by
      simp [step, cleanup, h6, h7, h1]
    rw [hstep]
    exact ⟨⟨rfl, rfl, rfl, rfl, rfl, h6, h7⟩, rfl⟩

theorem runActions_preserves_quiescent (s : Sys) (hq : Quiescent s) :
    ∀ acts : List SysAction,
      Quiescent (runActions s acts).1 ∧ (runActions s acts).1.queues = s.queues := by
  intro acts
  induction acts generalizing s with
  | nil => exact ⟨hq, rfl⟩
  | cons a rest ih =>
    rcases step_preserves_quiescent s hq a with ⟨hq1, hqs1⟩
    rcases ih (step s a).1 hq1 with ⟨hq2, hqs2⟩
    exact ⟨hq2, by simp only [runActions, hqs2, hqs1]⟩

/-- C9: after `cleanup` completes (from any state whose armed timers are
all recorded in a handle slot, as every reachable state's are), the
do-not-reconnect flag is set, no timer of any class remains armed, the
pending-event table is empty, and all transport subscriptions are
detached; and along every subsequent sequence of external steps (event
deliveries, close notifications, timer processing, the un-detached
`uncaughtException` hook, and `connect`/`cleanup` API calls) the state
stays in that quiescent class and the queue cache is never mutated again —
in particular no pending event can ever fire and `connect` never arms
anything. -/
theorem cleanup_quiescent (s : Sys) (hreg : timersRegistered s = true) :
    Quiescent (cleanup s).1 ∧
    (∀ acts : List SysAction,
      Quiescent (runActions (cleanup s).1 acts).1 ∧
      (runActions (cleanup s).1 acts).1.queues = (cleanup s).1.queues) ∧
    (∀ now : Nat, connect (cleanup s).1 now = ((cleanup s).1, [])) := by
  have hq := cleanup_state s hreg
  refine ⟨hq, fun acts => runActions_preserves_quiescent (cleanup s).1 hq acts, ?_⟩
  intro now
  obtain ⟨_, _, _, h4, _, _, _⟩ := hq
  simp [connect, h4]

/-- Witness for C9: shutting down a state with an armed, registered
debounce timer yields a quiescent state, and a subsequent `connect` call
plus a timer-processing step leave the queue cache untouched. -/
theorem cleanup_quiescent_witness :
    timersRegistered exSysArmed = true ∧
    (cleanup exSysArmed).1.timers = [] ∧
    (runActions (cleanup exSysArmed).1
        [SysAction.apiConnect 600, SysAction.fireTimers 2000]).1.queues
      = (cleanup exSysArmed).1.queues := by
  refine ⟨by decide, ?_, ?_⟩
  · exact (cleanup_quiescent exSysArmed (by decide)).1.1
  · exact ((cleanup_quiescent exSysArmed (by decide)).2.1 _).2

/-! ### Debounce-run lemmas -/

theorem fireDue_nil (s : Sys) (now : Nat) (h : s.timers = []) :
    fireDue s now = (s, []) := by
  simp [fireDue, h, fireDueFuel]

theorem fireDue_mid_noop (s0 : Sys) (E : String) (pe : PendingEvent) (tid fa : Nat)
    (kind : EventKind) (now : Nat) (h : now < fa) :
    fireDue (midSys s0 E pe tid fa kind) now = (midSys s0 E pe tid fa kind, []) := by
  have hfa : ¬ fa ≤ now := Nat.not_le.mpr h
  simp [fireDue, midSys, fireDueFuel, dueMin, hfa]

theorem fireDue_mid_fires (s0 : Sys) (E : String) (pe : PendingEvent) (tid fa : Nat)
    (kind : EventKind) (now : Nat) (h : fa ≤ now) :
    fireDue (midSys s0 E pe tid fa kind) now
      = processPendingEvent (midSysNT s0 E pe tid) E kind := by
  have hdue : dueMin (midSys s0 E pe tid fa kind).timers now
      = some { id := tid, fireAt := fa, task := TimerTask.debounce E kind } := by
    simp [midSys, dueMin, h]
  have hfire : fireTimer (midSys s0 E pe tid fa kind) now
      { id := tid, fireAt := fa, task := TimerTask.debounce E kind }
      = processPendingEvent (midSysNT s0 E pe tid) E kind := by
    have hflt : (midSys s0 E pe tid fa kind).timers.filter (fun u => u.id != tid) = [] := by
      simp [midSys]
    simp only [fireTimer, hflt]
    rfl
  show fireDueFuel (midSys s0 E pe tid fa kind).timers.length _ now = _
  have hlen : (midSys s0 E pe tid fa kind).timers.length = 1 := rfl
  rw [hlen]
  simp only [fireDueFuel, hdue, hfire]
  have hpe : mapGet (midSysNT s0 E pe tid).pendingEvents E = some pe := by
    simp [midSysNT, mapGet]
  have hnt : (processPendingEvent (midSysNT s0 E pe tid) E kind).1.timers = [] := by
    rw [processPendingEvent_fst _ _ _ pe hpe]
    simp [midSysNT]
  simp [fireDueFuel, hnt]

theorem schedule_quiescent (s : Sys) (now : Nat) (k : EventKind) (ev : RawEvent)
    (h1 : s.pendingEvents = []) (h2 : s.pendingTimeouts = []) (h3 : s.timers = []) :
    scheduleEventProcessing s now ev.interface k ev
      = midSys s ev.interface { payload := ev, queues := [ev.queue] } s.nextId
          (now + eventTimeout) k := by
  simp [scheduleEventProcessing, midSys, h1, h2, h3, mapGet, mapSet]

theorem schedule_mid (s0 : Sys) (E : String) (pe : PendingEvent) (tid fa now : Nat)
    (kind k2 : EventKind) (ev : RawEvent) (hE : ev.interface = E) :
    scheduleEventProcessing (midSys s0 E pe tid fa kind) now ev.interface k2 ev
      = midSys s0 E { payload := ev, queues := pushNew pe.queues ev.queue } (tid + 1)
          (now + eventTimeout) k2 := by
  subst hE
  simp [scheduleEventProcessing, midSys, mapGet, mapSet]

theorem finalPe_queues (rest : List (Nat × EventKind × RawEvent)) :
    ∀ pe : PendingEvent,
      (finalPe pe rest).queues
        = rest.foldl (fun a x => pushNew a x.2.2.queue) pe.queues := by
  induction rest with
  | nil => intro pe; rfl
  | cons x rest ih => intro pe; exact ih _

theorem finalPe_interface (E : String) (rest : List (Nat × EventKind × RawEvent)) :
    ∀ pe : PendingEvent, pe.payload.interface = E →
      rest.all (fun x => x.2.2.interface == E) = true →
      (finalPe pe rest).payload.interface = E := by
  induction rest with
  | nil => intro pe hpe _; exact hpe
  | cons x rest ih =>
    intro pe hpe hall
    simp only [List.all_cons, Bool.and_eq_true, beq_iff_eq] at hall
    exact ih _ hall.1 (by simpa using hall.2)

theorem foldl_pushNew_cons (q0 : String) (rest : List (Nat × EventKind × RawEvent)) :
    ∀ t : List String,
      ∃ t', rest.foldl (fun a x => pushNew a x.2.2.queue) (q0 :: t) = q0 :: t' := by
  induction rest with
  | nil => intro t; exact ⟨t, rfl⟩
  | cons x rest ih =>
    intro t
    show ∃ t', rest.foldl _ (pushNew (q0 :: t) x.2.2.queue) = q0 :: t'
    unfold pushNew
    by_cases hc : (q0 :: t).contains x.2.2.queue
    · simp only [hc, if_true]
      exact ih t
    · simp only [hc, if_false]
      exact ih (t ++ [x.2.2.queue])

theorem firstDedup_events (e0 : Nat × EventKind × RawEvent)
    (rest : List (Nat × EventKind × RawEvent)) :
    firstDedup ((e0 :: rest).map (fun x => x.2.2.queue))
      = rest.foldl (fun a x => pushNew a x.2.2.queue) [e0.2.2.queue] := by
  unfold firstDedup
  rw [List.foldl_map]
  rfl

theorem runEvents_mid (s0 : Sys) (E : String) :
    ∀ (rest : List (Nat × EventKind × RawEvent)) (pe : PendingEvent)
      (tid tprev : Nat) (kind : EventKind),
      gapsOkFrom tprev rest = true →
      rest.all (fun x => x.2.2.interface == E) = true →
      runEvents (midSys s0 E pe tid (tprev + eventTimeout) kind) rest
          (lastT tprev rest + eventTimeout)
        = processPendingEvent (midSysNT s0 E (finalPe pe rest) (tid + rest.length)) E
            (finalKind kind rest) := by
  intro rest
  induction rest with
  | nil =>
    intro pe tid tprev kind _ _
    show fireDue (midSys s0 E pe tid (tprev + eventTimeout) kind) (tprev + eventTimeout) = _
    rw [fireDue_mid_fires s0 E pe tid (tprev + eventTimeout) kind (tprev + eventTimeout)
      (Nat.le_refl _)]
    rfl
  | cons x rest ih =>
    intro pe tid tprev kind hgaps hall
    simp only [gapsOkFrom, Bool.and_eq_true, decide_eq_true_eq] at hgaps
    simp only [List.all_cons, Bool.and_eq_true, beq_iff_eq] at hall
    show (let r1 := fireDue (midSys s0 E pe tid (tprev + eventTimeout) kind) x.1
          let s2 := scheduleEventProcessing r1.1 x.1 x.2.2.interface x.2.1 x.2.2
          let r2 := runEvents s2 rest (lastT x.1 rest + eventTimeout)
          (r2.1, r1.2 ++ r2.2)) = _
    rw [show fireDue (midSys s0 E pe tid (tprev + eventTimeout) kind) x.1
        = (midSys s0 E pe tid (tprev + eventTimeout) kind, []) from
      fireDue_mid_noop s0 E pe tid (tprev + eventTimeout) kind x.1 hgaps.1.2]
    simp only []
    rw [schedule_mid s0 E pe tid (tprev + eventTimeout) x.1 kind x.2.1 x.2.2 hall.1]
    rw [ih { payload := x.2.2, queues := pushNew pe.queues x.2.2.queue } (tid + 1) x.1 x.2.1
      hgaps.2 hall.2]
    have harith : tid + 1 + rest.length = tid + (x :: rest).length := by
      simp [List.length_cons]
      omega
    rw [harith]
    simp only [List.nil_append]
    rfl

/-- C1 (amended): from a quiescent engine, for every sequence of N ≥ 1 raw
Status/Pause events for the same extension with all inter-arrival gaps
strictly below the debounce window, advancing the clock to one window after
the last event fires the timer exactly once and — provided the
first-contributing queue is in the cache and contains a member with that
extension — emits exactly one merged notification (of the last event's
kind) whose queue list is the distinct queue names seen in
first-contribution order, followed only by the generic `queuesUpdated`
notification.  (Without the proviso no merged notification is emitted —
see the counterexample.) -/
theorem coalescing_single_merged (s : Sys) (e0 : Nat × EventKind × RawEvent)
    (rest : List (Nat × EventKind × RawEvent)) (E : String)
    (hq1 : s.pendingEvents = []) (hq2 : s.pendingTimeouts = []) (hq3 : s.timers = [])
    (hE0 : e0.2.2.interface = E)
    (hE : rest.all (fun x => x.2.2.interface == E) = true)
    (hgaps : gapsOkFrom e0.1 rest = true)
    (hfirst : queueHasMember s.queues e0.2.2.queue E = true) :
    ∃ mem : Member,
      (runEvents s (e0 :: rest) (lastT e0.1 rest + eventTimeout)).2
        = [mkMerged (finalKind e0.2.1 rest)
             (firstDedup ((e0 :: rest).map (fun x => x.2.2.queue))) mem mem.paused,
           Notification.queuesUpdated (mapValues
             (runEvents s (e0 :: rest) (lastT e0.1 rest + eventTimeout)).1.queues)] := by
  subst hE0
  set E := e0.2.2.interface with hEdef
  have hrun : runEvents s (e0 :: rest) (lastT e0.1 rest + eventTimeout)
      = processPendingEvent
          (midSysNT s E (finalPe { payload := e0.2.2, queues := [e0.2.2.queue] } rest)
            (s.nextId + rest.length)) E (finalKind e0.2.1 rest) := by
    show (let r1 := fireDue s e0.1
          let s2 := scheduleEventProcessing r1.1 e0.1 e0.2.2.interface e0.2.1 e0.2.2
          let r2 := runEvents s2 rest (lastT e0.1 rest + eventTimeout)
          (r2.1, r1.2 ++ r2.2)) = _
    rw [show fireDue s e0.1 = (s, []) from fireDue_nil s e0.1 hq3]
    simp only []
    rw [schedule_quiescent s e0.1 e0.2.1 e0.2.2 hq1 hq2 hq3]
    rw [runEvents_mid s E rest { payload := e0.2.2, queues := [e0.2.2.queue] } s.nextId e0.1
      e0.2.1 hgaps hE]
    simp only [List.nil_append]
  set peF := finalPe { payload := e0.2.2, queues := [e0.2.2.queue] } rest with hpeF
  have hpeFq : peF.queues = rest.foldl (fun a x => pushNew a x.2.2.queue) [e0.2.2.queue] :=
    finalPe_queues rest _
  rcases foldl_pushNew_cons e0.2.2.queue rest [] with ⟨t', ht'⟩
  have hqcons : peF.queues = e0.2.2.queue :: t' := by rw [hpeFq]; exact ht'
  have hpeFint : peF.payload.interface = E :=
    finalPe_interface E rest _ rfl hE
  have hmapget : mapGet (midSysNT s E peF (s.nextId + rest.length)).pendingEvents E
      = some peF := by
    simp [midSysNT, mapGet]
  have hgate : firstQueueHasMember (midSysNT s E peF (s.nextId + rest.length)).queues
      peF.queues peF.payload.interface = true := by
    show firstQueueHasMember s.queues peF.queues peF.payload.interface = true
    rw [hqcons, hpeFint]
    exact hfirst
  rcases processPendingEvent_merged (midSysNT s E peF (s.nextId + rest.length)) E
    (finalKind e0.2.1 rest) peF hmapget hgate with ⟨mem, hout⟩
  refine ⟨mem, ?_⟩
  rw [hrun, hout]
  rw [processPendingEvent_fst _ _ _ peF hmapget]
  have hfd : firstDedup ((e0 :: rest).map (fun x => x.2.2.queue)) = peF.queues := by
    rw [firstDedup_events, hpeFq]
  rw [hfd]

/-- Witness for C1 (amended) at a single concrete pause event against a
cache containing its queue and member. -/
theorem coalescing_single_merged_witness :
    ∃ mem : Member,
      (runEvents exSys [(0, EventKind.pause, exPauseA)] (lastT 0 [] + eventTimeout)).2
        = [mkMerged (finalKind EventKind.pause [])
             (firstDedup ([(0, EventKind.pause, exPauseA)].map (fun x => x.2.2.queue)))
             mem mem.paused,
           Notification.queuesUpdated (mapValues
             (runEvents exSys [(0, EventKind.pause, exPauseA)]
               (lastT 0 [] + eventTimeout)).1.queues)] :=
  coalescing_single_merged exSys (0, EventKind.pause, exPauseA) [] "SIP/100"
    rfl rfl rfl rfl rfl rfl (by decide)
